import Mathlib

/-!
# Verification of the RummikubBot meld-partition solver

Shallow embedding of `src/solver.rs` (repository icheered/RummikubBot).

Modelling conventions:
* Rust `u8` counts become `Nat`; the `u8 -= 1` decrement is modelled by
  truncated `Nat` subtraction (the no-underflow claims are proved separately).
* Rust `u64` wrapping arithmetic in `Inventory::hash` is modelled on `Nat`
  with an explicit `% 2 ^ 64` after every operation.
* The 13×4 grid `[[u8; 4]; 13]` is a function `Fin 13 → Fin 4 → Nat`;
  out-of-bounds access (a panic in Rust) is totalised to `0` via
  `Inventory.cell`, and out-of-bounds mutation to a no-op; all theorems about
  the solver only ever access in-bounds cells, matching the Rust code paths.
* `HashMap<u64, Option<Vec<Set>>>` becomes an association list with
  first-match lookup and prepend insert, which has the same lookup/insert
  observable behaviour.
* The Rust recursion in `solve_rummikub` carries no fuel; the embedding
  `solveFuel` takes explicit fuel, and `solve_rummikub` instantiates it with
  `real_tile_count + 1`.  The fuel-irrelevance theorem (claim C6) shows any
  fuel beyond the real-tile count yields the same answer, which is exactly the
  spec's recursion-depth bound.
* `grab_tile` uses `rand`; its embedding takes the random choices (the joker
  coin flip and the index chosen by `choose`) as explicit parameters.
-/

namespace Rummikub

/-- 2^64, the modulus of Rust `u64` wrapping arithmetic. -/
def wordSize : Nat := 2 ^ 64

/-- Rust `struct Tile { color: u8, number: u8, is_joker: bool }`. -/
structure Tile where
  color : Nat
  number : Nat
  is_joker : Bool
deriving DecidableEq, Repr, Inhabited

/-- Rust `struct Set { tiles: Vec<Tile> }`: a candidate meld. -/
structure Set where
  tiles : List Tile
deriving DecidableEq, Repr, Inhabited

/-- Rust `struct Inventory { grid: [[u8; 4]; 13], jokers: u8 }`. -/
structure Inventory where
  grid : Fin 13 → Fin 4 → Nat
  jokers : Nat

/-- Total read of a grid cell: Rust `grid[i][j]` (in-bounds on every path the
solver takes; out of bounds, where Rust would panic, we return `0`). -/
def cellOf (g : Fin 13 → Fin 4 → Nat) (i j : Nat) : Nat :=
  if h : i < 13 ∧ j < 4 then g ⟨i, h.1⟩ ⟨j, h.2⟩ else 0

/-- `inventory.grid[i][j]`. -/
def Inventory.cell (inv : Inventory) (i j : Nat) : Nat :=
  cellOf inv.grid i j

/-- Rust `Inventory::is_empty`: all 52 grid cells are zero (jokers ignored). -/
def Inventory.is_empty (inv : Inventory) : Bool :=
  (List.range 13).all fun i => (List.range 4).all fun j => inv.cell i j == 0

/-- Rust `Inventory::total_tile_count`: grid sum plus jokers. -/
def Inventory.total_tile_count (inv : Inventory) : Nat :=
  ((List.range 13).map fun i => ((List.range 4).map fun j => inv.cell i j).sum).sum
    + inv.jokers

/-- The number of real (non-joker) tiles: the grid sum.  Not a named Rust
function; it is the recursion measure used to give the solver fuel. -/
def Inventory.real_tile_count (inv : Inventory) : Nat :=
  ((List.range 13).map fun i => ((List.range 4).map fun j => inv.cell i j).sum).sum

/-- Rust `Inventory::available_tiles`: the (number-index, color) pairs of the
cells with a positive count, row-major. -/
def Inventory.available_tiles (inv : Inventory) : List (Nat × Nat) :=
  (List.range 13).foldr
    (fun number acc =>
      ((List.range 4).filterMap fun color =>
        if inv.cell number color > 0 then some (number, color) else none) ++ acc)
    []

/-- Decrement grid cell `(i, j)` by one (Rust `grid[i][j] -= 1`; `Nat`
subtraction models the `u8` decrement, a no-op out of bounds). -/
def Inventory.decCell (inv : Inventory) (i j : Nat) : Inventory :=
  { inv with
    grid := fun a b => if a.val = i ∧ b.val = j then inv.grid a b - 1 else inv.grid a b }

/-- Increment grid cell `(i, j)` by one (Rust `grid[i][j] += 1`). -/
def Inventory.incCell (inv : Inventory) (i j : Nat) : Inventory :=
  { inv with
    grid := fun a b => if a.val = i ∧ b.val = j then inv.grid a b + 1 else inv.grid a b }

/-- Rust `Inventory::remove_tiles`: for each tile of the set, decrement
`grid[tile.number - 1][tile.color]`. -/
def Inventory.remove_tiles (inv : Inventory) (set : Set) : Inventory :=
  set.tiles.foldl (fun iv t => iv.decCell (t.number - 1) t.color) inv

/-- One step of the Rust hash fold:
`hash.wrapping_mul(31).wrapping_add(tile).wrapping_add(i).wrapping_add(j)`. -/
def hashStep (h v i j : Nat) : Nat :=
  ((((h * 31) % wordSize + v) % wordSize + i) % wordSize + j) % wordSize

/-- The grid part of `Inventory::hash`: fold `hashStep` over all 52 cells in
row-major order starting from 0. -/
def gridHash (g : Fin 13 → Fin 4 → Nat) : Nat :=
  (List.range 13).foldl
    (fun h i => (List.range 4).foldl (fun h2 j => hashStep h2 (cellOf g i j) i j) h)
    0

/-- Rust `Inventory::hash`: the grid fold, then
`hash.wrapping_mul(31).wrapping_add(jokers)`. -/
def Inventory.hash (inv : Inventory) : Nat :=
  ((gridHash inv.grid * 31) % wordSize + inv.jokers) % wordSize

/-- Rust `try_form_set_incl_jokers`: walk colors 0..3; take the real tile if
present, else spend a joker from the (local) budget; return as soon as 3 tiles
are collected.  (Dead code in the repository: `solve_rummikub` never calls
it.) -/
def try_form_set_incl_jokers_aux (inv : Inventory) (number : Nat) :
    List Nat → List Tile → Nat → Option Set
  | [], _, _ => none
  | color :: rest, set_tiles, jokers_used =>
    if inv.cell (number - 1) color > 0 then
      if (set_tiles ++ [(⟨color, number, false⟩ : Tile)]).length = 3 then
        some ⟨set_tiles ++ [(⟨color, number, false⟩ : Tile)]⟩
      else
        try_form_set_incl_jokers_aux inv number rest
          (set_tiles ++ [(⟨color, number, false⟩ : Tile)]) jokers_used
    else if jokers_used < inv.jokers then
      if (set_tiles ++ [(⟨color, number, true⟩ : Tile)]).length = 3 then
        some ⟨set_tiles ++ [(⟨color, number, true⟩ : Tile)]⟩
      else
        try_form_set_incl_jokers_aux inv number rest
          (set_tiles ++ [(⟨color, number, true⟩ : Tile)]) (jokers_used + 1)
    else
      if set_tiles.length = 3 then some ⟨set_tiles⟩
      else try_form_set_incl_jokers_aux inv number rest set_tiles jokers_used

def try_form_set_incl_jokers (inv : Inventory) (number : Nat) : Option Set :=
  try_form_set_incl_jokers_aux inv number [0, 1, 2, 3] [] 0

/-- Rust `try_form_run_incl_jokers`: walk numbers `start_number..=13`; take the
real tile if present, else spend a joker, else stop; succeed iff at least 3
tiles were collected.  (Dead code in the repository.) -/
def try_form_run_incl_jokers_aux (inv : Inventory) (color : Nat) :
    List Nat → List Tile → Nat → List Tile
  | [], run_tiles, _ => run_tiles
  | number :: rest, run_tiles, jokers_used =>
    if inv.cell (number - 1) color > 0 then
      try_form_run_incl_jokers_aux inv color rest
        (run_tiles ++ [⟨color, number, false⟩]) jokers_used
    else if jokers_used < inv.jokers then
      try_form_run_incl_jokers_aux inv color rest
        (run_tiles ++ [⟨color, number, true⟩]) (jokers_used + 1)
    else
      run_tiles

def try_form_run_incl_jokers (inv : Inventory) (start_number color : Nat) :
    Option Set :=
  let run_tiles :=
    try_form_run_incl_jokers_aux inv color
      (List.range' start_number (14 - start_number)) [] 0
  if 3 ≤ run_tiles.length then some ⟨run_tiles⟩ else none

/-- Rust `try_form_set`: all colors 0..3 whose cell at `number` is positive, as
real tiles; succeed iff at least 3. -/
def try_form_set (inv : Inventory) (number : Nat) : Option Set :=
  let set_tiles :=
    (List.range 4).filterMap fun color =>
      if inv.cell (number - 1) color > 0 then
        some (⟨color, number, false⟩ : Tile)
      else none
  if 3 ≤ set_tiles.length then some ⟨set_tiles⟩ else none

/-- Rust `try_form_run`: numbers `start_number..=13` taken while the cell at
`(number, color)` is positive, as real tiles; succeed iff at least 3. -/
def try_form_run (inv : Inventory) (start_number color : Nat) : Option Set :=
  let run_tiles :=
    ((List.range' start_number (14 - start_number)).takeWhile
      fun number => inv.cell (number - 1) color > 0).map
      fun number => (⟨color, number, false⟩ : Tile)
  if 3 ≤ run_tiles.length then some ⟨run_tiles⟩ else none

/-- Rust `grab_tile`, with the randomness made explicit: `coin` is the result
of `rng.gen_bool(jokers / total)` (only consulted when `jokers > 0`, thanks to
`&&` short-circuit), and `pick` selects the element `choose` returns from
`available_tiles` (none when the list is empty). -/
def grab_tile (source destination : Inventory) (coin : Bool) (pick : Nat) :
    Inventory × Inventory :=
  let grab_joker := decide (source.jokers > 0) && coin
  if grab_joker then
    ({ source with jokers := source.jokers - 1 },
     { destination with jokers := destination.jokers + 1 })
  else
    match (source.available_tiles).get? (pick % source.available_tiles.length) with
    | some (number, color) =>
        (source.decCell number color, destination.incCell number color)
    | none => (source, destination)

/-- Rust `type Memo = HashMap<u64, Option<Vec<Set>>>`, as an association list:
first-match lookup, prepend insert. -/
abbrev Memo := List (Nat × Option (List Set))

/-- The `(number, color)` pairs visited by the solver's double loop:
`number` in 1..=13 (outer), `color` in 0..4 (inner). -/
def allCells : List (Nat × Nat) :=
  (List.range 13).foldr
    (fun k acc => ((List.range 4).map fun c => (k + 1, c)) ++ acc) []

/-- One meld attempt of the solver loop body: if `cand` is a meld, remove its
tiles and recurse via `solve`; on recursive success append the meld to the
returned solution (Rust `solution.push(new_set)`). -/
def solveBranch (solve : Inventory → Memo → Option (List Set) × Memo)
    (inv : Inventory) (cand : Option Set) (memo : Memo) :
    Option (List Set) × Memo :=
  match cand with
  | none => (none, memo)
  | some new_set =>
    match solve (inv.remove_tiles new_set) memo with
    | (some solution, m) => (some (solution ++ [new_set]), m)
    | (none, m) => (none, m)

/-- The solver's double loop over cells, parameterised by the recursive call
`solve` (instantiated with `solveFuel fuel`).  For each cell with a positive
count it tries `try_form_set`, then `try_form_run`; a success memoises the
solution under the original inventory's hash and returns it.  When all cells
fail, it memoises `none`. -/
def solveCells (solve : Inventory → Memo → Option (List Set) × Memo)
    (inv : Inventory) : List (Nat × Nat) → Memo → Option (List Set) × Memo
  | [], memo => (none, (inv.hash, none) :: memo)
  | (number, color) :: rest, memo =>
    if inv.cell (number - 1) color > 0 then
      match solveBranch solve inv (try_form_set inv number) memo with
      | (some solution, m) => (some solution, (inv.hash, some solution) :: m)
      | (none, m) =>
        match solveBranch solve inv (try_form_run inv number color) m with
        | (some solution, m2) => (some solution, (inv.hash, some solution) :: m2)
        | (none, m2) => solveCells solve inv rest m2
    else
      solveCells solve inv rest memo

/-- Rust `solve_rummikub`, with explicit fuel bounding the recursion depth:
memo lookup first, then the empty-hand base case, then the cell loop. -/
def solveFuel : Nat → Inventory → Memo → Option (List Set) × Memo
  | 0, _, memo => (none, memo)
  | fuel + 1, inv, memo =>
    match memo.lookup inv.hash with
    | some solution => (solution, memo)
    | none =>
      if inv.is_empty then (some [], memo)
      else solveCells (solveFuel fuel) inv allCells memo

/-- Rust `solve_rummikub`: the fueled solver with fuel `real_tile_count + 1`,
which the fuel-irrelevance theorem shows is enough. -/
def solve_rummikub (inv : Inventory) (memo : Memo) : Option (List Set) × Memo :=
  solveFuel (inv.real_tile_count + 1) inv memo

/-- Build a grid from a list of rows (missing entries are 0), for concrete
test inventories. -/
def gridOf (rows : List (List Nat)) : Fin 13 → Fin 4 → Nat :=
  fun i j => (rows.getD i.val []).getD j.val 0

instance : DecidableEq Inventory := fun a b =>
  decidable_of_iff (a.grid = b.grid ∧ a.jokers = b.jokers)
    (by cases a; cases b; simp)

/-! ## Specification predicates (what the spec calls Group / Run / exact
consumption), stated over the embedded data model. -/

/-- A valid group per the spec: 3–4 tiles, all the same number, pairwise
distinct colors. -/
def IsGroup (s : Set) : Prop :=
  3 ≤ s.tiles.length ∧ s.tiles.length ≤ 4 ∧
  (∀ t ∈ s.tiles, t.number = (s.tiles.getD 0 default).number) ∧
  s.tiles.Pairwise fun a b => a.color ≠ b.color

/-- A valid run per the spec: at least 3 tiles, all the same color, strictly
consecutive ascending numbers. -/
def IsRun (s : Set) : Prop :=
  3 ≤ s.tiles.length ∧
  ∀ k, k < s.tiles.length →
    (s.tiles.getD k default).color = (s.tiles.getD 0 default).color ∧
    (s.tiles.getD k default).number = (s.tiles.getD 0 default).number + k

/-- All tiles of all melds of a partition, in order. -/
def joinedTiles (sets : List Set) : List Tile :=
  (sets.map Set.tiles).flatten

/-- How many tiles of `ts` sit at grid cell `(i, j)` (tile number `i + 1`,
color `j`). -/
def tilesCellCount (ts : List Tile) (i j : Nat) : Nat :=
  (ts.filter fun t => t.number == i + 1 && t.color == j).length

/-- How many non-joker tiles of `ts` sit at grid cell `(i, j)`. -/
def realCountAt (ts : List Tile) (i j : Nat) : Nat :=
  (ts.filter fun t => t.number == i + 1 && t.color == j && !t.is_joker).length

/-- Exact consumption: every grid cell's count is exactly the number of
non-joker tiles the partition places there. -/
def Consumes (inv : Inventory) (sets : List Set) : Prop :=
  ∀ i j, inv.cell i j = realCountAt (joinedTiles sets) i j

/-- No tile of the partition is marked as a joker. -/
def NoJokerTiles (sets : List Set) : Prop :=
  ∀ t ∈ joinedTiles sets, t.is_joker = false

/-- A memo all of whose cached entries are `NotFound`.  A fresh memo is
`SomeFree`, and within a single top-level solve a `Found` entry is only ever
written while the successful call stack unwinds, after which no lookup
happens. -/
def SomeFree (memo : Memo) : Prop :=
  ∀ p ∈ memo, p.2 = (none : Option (List Set))

/-- All memo keys are reduced mod 2^64 (they are `Inventory.hash` values). -/
def KeysLt (memo : Memo) : Prop :=
  ∀ p ∈ memo, p.1 < wordSize

/-- What the meld finders guarantee about a returned set: nonempty, every
tile a real in-bounds tile whose grid cell is positive, and all tiles at
pairwise distinct cells. -/
def FinderSet (inv : Inventory) (s : Set) : Prop :=
  s.tiles ≠ [] ∧
  (∀ t ∈ s.tiles,
    1 ≤ t.number ∧ t.number ≤ 13 ∧ t.color < 4 ∧ t.is_joker = false ∧
    inv.cell (t.number - 1) t.color > 0) ∧
  s.tiles.Pairwise fun a b => ¬(a.number = b.number ∧ a.color = b.color)

/-- Safety of `remove_tiles` on a set: all tiles address in-bounds cells and
no cell is asked to give up more tiles than it holds. -/
def SafeRemove (inv : Inventory) (s : Set) : Prop :=
  (∀ t ∈ s.tiles, 1 ≤ t.number ∧ t.number ≤ 13 ∧ t.color < 4) ∧
  ∀ i j, tilesCellCount s.tiles i j ≤ inv.cell i j

/-- Every tile of the partition is in bounds: number 1..13, color 0..3. -/
def TilesInBounds (sets : List Set) : Prop :=
  ∀ t ∈ joinedTiles sets, 1 ≤ t.number ∧ t.number ≤ 13 ∧ t.color < 4

/-- The invariant a solver function maintains when started on a memo whose
entries are all `NotFound`: a `NotFound` answer leaves the memo all-`NotFound`
(within one top-level call, `Found` entries are written only while the
successful stack unwinds, after which nothing is looked up), and a `Found`
answer is a partition that exactly consumes the inventory with valid,
joker-free, in-bounds melds. -/
def GoodSolve (solve : Inventory → Memo → Option (List Set) × Memo) : Prop :=
  ∀ inv memo, SomeFree memo →
    ((solve inv memo).1 = none → SomeFree (solve inv memo).2) ∧
    (∀ sets, (solve inv memo).1 = some sets →
      Consumes inv sets ∧ (∀ s ∈ sets, IsGroup s ∨ IsRun s) ∧
        NoJokerTiles sets ∧ TilesInBounds sets)

/-- Add `d` to a memo key, wrapping mod 2^64 (relates the memo of a solve run
to the memo of the same run with a different joker count). -/
def shiftKey (d k : Nat) : Nat := (k + d) % wordSize

/-- Shift every key of a memo by `d` mod 2^64. -/
def memoShift (d : Nat) (memo : Memo) : Memo :=
  memo.map fun p => (shiftKey d p.1, p.2)

/-! ## Concrete inventories for the explicit scenarios. -/

/-- Spec scenario 3: tiles (7, Red) and (9, Red), one joker. -/
def invTwoSevenNine : Inventory :=
  ⟨gridOf [[], [], [], [], [], [], [1], [], [1]], 1⟩

/-- The run the spec expects for scenario 3: (7,R), joker at (8,R), (9,R). -/
def runSevenEightNine : Set :=
  ⟨[⟨0, 7, false⟩, ⟨0, 8, true⟩, ⟨0, 9, false⟩]⟩

/-- Empty grid, 31 jokers: first half of the hash collision pair. -/
def invJokers31 : Inventory := ⟨gridOf [], 31⟩

/-- One tile at (13, Black), no joker: second half of the collision pair. -/
def invOneThirteenBlack : Inventory :=
  ⟨gridOf [[], [], [], [], [], [], [], [], [], [], [], [], [0, 0, 0, 1]], 0⟩

/-- All four colors of number 5, no jokers: `try_form_set` returns 4 tiles. -/
def invFourFives : Inventory :=
  ⟨gridOf [[], [], [], [], [1, 1, 1, 1]], 0⟩

/-- An inventory with zero tiles and zero jokers (an empty supply). -/
def invEmpty : Inventory := ⟨gridOf [], 0⟩

/-! ## General-purpose helper lemmas -/

@[simp] theorem Tile_color_mk (c n : Nat) (b : Bool) : (Tile.mk c n b).color = c := rfl

@[simp] theorem Tile_number_mk (c n : Nat) (b : Bool) : (Tile.mk c n b).number = n := rfl

@[simp] theorem Tile_joker_mk (c n : Nat) (b : Bool) : (Tile.mk c n b).is_joker = b := rfl

@[simp] theorem Set_tiles_mk (l : List Tile) : (Set.mk l).tiles = l := rfl

theorem foldr_append_nil {α β : Type} (g : α → List β) :
    ∀ l : List α, (∀ x ∈ l, g x = []) → l.foldr (fun x acc => g x ++ acc) [] = [] := by
  intro l h
  induction l with
  | nil => rfl
  | cons x xs ih =>
    simp only [List.foldr_cons, h x (by simp), List.nil_append]
    exact ih fun y hy => h y (by simp [hy])

theorem lookup_mem {k : Nat} {v : Option (List Set)} :
    ∀ {m : Memo}, m.lookup k = some v → (k, v) ∈ m := by
  intro m
  induction m with
  | nil => intro h; exact absurd h (by simp [List.lookup])
  | cons p rest ih =>
    intro h
    rw [List.lookup] at h
    cases hk : (k == p.1) with
    | false =>
      rw [hk] at h
      exact List.mem_cons_of_mem _ (ih h)
    | true =>
      rw [hk] at h
      have hkv : some p.2 = some v := h
      have hke : k = p.1 := by simpa using hk
      cases hkv
      subst hke
      exact List.mem_cons_self _ _

/-! ## Claim C2: injectivity of the memo key -/

set_option maxRecDepth 40000 in
/-- Claim C2 (counterexample): two inventories that differ both in a grid
cell and in the joker count share the same `Inventory.hash` key: the empty
grid with 31 jokers collides with one (13, Black) tile and 0 jokers. -/
theorem C2_hash_collision :
    Inventory.hash invJokers31 = Inventory.hash invOneThirteenBlack ∧
    invJokers31.cell 12 3 ≠ invOneThirteenBlack.cell 12 3 ∧
    invJokers31.jokers ≠ invOneThirteenBlack.jokers := by
  refine ⟨?_, by decide, by decide⟩
  decide

/-- Claim C2 (amended): `Inventory.hash` is not injective on inventories
differing in grid cells; what survives is injectivity in the joker count at a
fixed grid: two inventories with the same grid and different joker counts
(each below 2^64, as any `u8` is) receive different keys. -/
theorem C2_hash_injective_in_jokers (g : Fin 13 → Fin 4 → Nat) (j1 j2 : Nat)
    (h1 : j1 < wordSize) (h2 : j2 < wordSize) (hne : j1 ≠ j2) :
    Inventory.hash ⟨g, j1⟩ ≠ Inventory.hash ⟨g, j2⟩ := by
  intro h
  simp only [Inventory.hash] at h
  have hmod : j1 % wordSize = j2 % wordSize :=
    Nat.ModEq.add_left_cancel' (gridHash g * 31 % wordSize) h
  rw [Nat.mod_eq_of_lt h1, Nat.mod_eq_of_lt h2] at hmod
  exact hne hmod

/-- Witness for C2's amended theorem at the empty grid with joker counts 0
and 1. -/
theorem C2_hash_injective_in_jokers_witness :
    Inventory.hash ⟨gridOf [], 0⟩ ≠ Inventory.hash ⟨gridOf [], 1⟩ :=
  C2_hash_injective_in_jokers (gridOf []) 0 1 (by norm_num [wordSize])
    (by norm_num [wordSize]) (by decide)

/-! ## Claim C3: sizes of the melds built by the group finders -/

/-- Claim C3 (counterexample): `try_form_set` — the group finder the solver
actually calls — does return a 4-tile group when all four colors are
available: it appends the 4th color instead of stopping at 3. -/
theorem C3_four_tile_group :
    try_form_set invFourFives 5 =
      some ⟨[⟨0, 5, false⟩, ⟨1, 5, false⟩, ⟨2, 5, false⟩, ⟨3, 5, false⟩]⟩ := by
  decide

theorem try_form_set_incl_jokers_aux_length (inv : Inventory) (number : Nat) :
    ∀ (cs : List Nat) (acc : List Tile) (ju : Nat) (s : Set),
      acc.length < 3 →
      try_form_set_incl_jokers_aux inv number cs acc ju = some s →
      s.tiles.length = 3 := by
  intro cs
  induction cs with
  | nil => intro acc ju s _ h; simp [try_form_set_incl_jokers_aux] at h
  | cons c rest ih =>
    intro acc ju s hlen h
    rw [try_form_set_incl_jokers_aux] at h
    split_ifs at h with h1 h2 h3 h4 h5
    · cases h; simpa using h2
    · exact ih _ _ _ (by simp at h2 ⊢; omega) h
    · cases h; simpa using h4
    · exact ih _ _ _ (by simp at h4 ⊢; omega) h
    · cases h; omega
    · exact ih _ _ _ hlen h

/-- Claim C3 (amended): the joker-aware group finder
`try_form_set_incl_jokers` indeed always returns exactly 3 tiles, but the
group finder the solver calls, `try_form_set`, returns every available color:
between 3 and 4 tiles, with a 4th available color appended. -/
theorem C3_group_finder_sizes (inv : Inventory) (number : Nat) (s : Set) :
    (try_form_set_incl_jokers inv number = some s → s.tiles.length = 3) ∧
    (try_form_set inv number = some s →
      3 ≤ s.tiles.length ∧ s.tiles.length ≤ 4) := by
  constructor
  · intro h
    exact try_form_set_incl_jokers_aux_length inv number _ [] 0 s (by simp) h
  · intro h
    rw [try_form_set] at h
    split_ifs at h with h3
    · cases h
      exact ⟨h3, le_trans (List.length_filterMap_le _ _) (by simp)⟩

/-- Witness for C3's amended theorem: on four available fives the plain
finder returns between 3 and 4 tiles (here 4), and on the spec's scenario-3
inventory the joker-aware finder returns exactly 3 tiles. -/
theorem C3_group_finder_sizes_witness :
    3 ≤ (Set.tiles ⟨[⟨0, 5, false⟩, ⟨1, 5, false⟩, ⟨2, 5, false⟩, ⟨3, 5, false⟩]⟩).length ∧
    (Set.tiles ⟨[⟨0, 5, false⟩, ⟨1, 5, false⟩, ⟨2, 5, false⟩, ⟨3, 5, false⟩]⟩).length ≤ 4 :=
  (C3_group_finder_sizes invFourFives 5 _).2 (by decide)

/-! ## Claim C1: the scenario {(7,R),(9,R)} + 1 joker -/

set_option maxRecDepth 40000 in
/-- Claim C1 (counterexample): on the inventory with (7,Red), (9,Red) and one
joker, `solve_rummikub` with a fresh memo does not return the joker-completed
run the spec promises. -/
theorem C1_no_joker_run :
    (solve_rummikub invTwoSevenNine []).1 ≠ some [runSevenEightNine] := by
  decide

set_option maxRecDepth 40000 in
/-- Claim C1 (amended): on {(7,R),(9,R)} with 1 joker the solver returns
`NotFound`: `solve_rummikub` only ever calls the joker-less finders
`try_form_set`/`try_form_run`, which cannot bridge the gap at 8 — while the
never-called joker-aware finder `try_form_run_incl_jokers` would have
produced exactly the run the spec expects. -/
theorem C1_solver_returns_notfound :
    (solve_rummikub invTwoSevenNine []).1 = none ∧
    try_form_run_incl_jokers invTwoSevenNine 7 0 = some runSevenEightNine := by
  constructor
  · decide
  · decide

/-! ## Claim C7: empty-hand base case -/

/-- Claim C7: on any inventory whose grid cells are all zero (any joker
count), with a memo holding no entry for that inventory's key,
`solve_rummikub` returns `Found([])`. -/
theorem C7_empty_hand (inv : Inventory) (memo : Memo)
    (hz : ∀ i j, i < 13 → j < 4 → inv.cell i j = 0)
    (hmem : memo.lookup inv.hash = none) :
    (solve_rummikub inv memo).1 = some [] := by
  have he : inv.is_empty = true := by
    simp only [Inventory.is_empty, List.all_eq_true, List.mem_range, beq_iff_eq]
    intro i hi j hj
    exact hz i j hi hj
  rw [solve_rummikub, solveFuel, hmem, he]
  simp

/-- Witness for C7 at the empty grid with 7 jokers and a fresh memo. -/
theorem C7_empty_hand_witness :
    (solve_rummikub ⟨gridOf [], 7⟩ []).1 = some [] :=
  C7_empty_hand ⟨gridOf [], 7⟩ []
    (by intro i j hi hj; simp [Inventory.cell, cellOf, gridOf, hi, hj])
    (by decide)

/-! ## Claim C8: drawing from an empty supply -/

/-- Claim C8 (counterexample): `grab_tile` invoked on a source with zero
tiles and zero jokers silently returns with both inventories unchanged — no
error is surfaced (concrete invocation, arbitrary randomness values). -/
theorem C8_grab_tile_silent :
    grab_tile invEmpty ⟨gridOf [], 5⟩ true 0 = (invEmpty, ⟨gridOf [], 5⟩) := by
  decide

/-- Claim C8 (amended): drawing from an empty supply is NOT rejected: for any
source holding zero tiles and zero jokers, `grab_tile` is a silent no-op —
the joker branch is skipped (`jokers > 0` fails, short-circuiting the `&&`)
and `choose` on the empty `available_tiles` list returns `None`, so the
`if let` falls through and both inventories are returned unchanged. -/
theorem C8_grab_tile_empty_noop (source destination : Inventory) (coin : Bool)
    (pick : Nat) (h : source.total_tile_count = 0) :
    grab_tile source destination coin pick = (source, destination) := by
  have hj : source.jokers = 0 := by
    rw [Inventory.total_tile_count] at h
    omega
  have hsum : ((List.range 13).map fun i =>
      ((List.range 4).map fun j => source.cell i j).sum).sum = 0 := by
    rw [Inventory.total_tile_count] at h
    omega
  have hcell : ∀ i ∈ List.range 13, ∀ j ∈ List.range 4, source.cell i j = 0 := by
    intro i hi j hj4
    have hrow := List.sum_eq_zero_iff.1 hsum _ (List.mem_map_of_mem _ hi)
    exact List.sum_eq_zero_iff.1 hrow _ (List.mem_map_of_mem _ hj4)
  have hav : source.available_tiles = [] := by
    rw [Inventory.available_tiles]
    apply foldr_append_nil
    intro i hi
    rw [List.filterMap_eq_nil_iff]
    intro j hj4
    rw [if_neg]
    simp [hcell i hi j hj4]
  rw [grab_tile]
  simp [hj, hav]

/-- Witness for C8's amended theorem at a concrete empty source. -/
theorem C8_grab_tile_empty_noop_witness :
    grab_tile invEmpty ⟨gridOf [], 3⟩ false 2 = (invEmpty, ⟨gridOf [], 3⟩) :=
  C8_grab_tile_empty_noop invEmpty ⟨gridOf [], 3⟩ false 2 (by decide)

/-! ## Grid cell arithmetic for `remove_tiles` -/

theorem cell_pos_bounds {inv : Inventory} {i j : Nat} (h : 0 < inv.cell i j) :
    i < 13 ∧ j < 4 := by
  by_contra hc
  rw [Inventory.cell, cellOf, dif_neg hc] at h
  exact Nat.lt_irrefl 0 h

theorem cell_decCell (inv : Inventory) (a b i j : Nat) :
    (inv.decCell a b).cell i j =
      if i = a ∧ j = b then inv.cell i j - 1 else inv.cell i j := by
  simp only [Inventory.decCell, Inventory.cell, cellOf]
  by_cases hij : i < 13 ∧ j < 4
  · simp only [dif_pos hij]
  · simp only [dif_neg hij]
    split_ifs <;> rfl

theorem jokers_fold_dec :
    ∀ (ts : List Tile) (inv : Inventory),
      (ts.foldl (fun iv t => iv.decCell (t.number - 1) t.color) inv).jokers =
        inv.jokers := by
  intro ts
  induction ts with
  | nil => intro inv; rfl
  | cons t rest ih => intro inv; rw [List.foldl_cons, ih]; rfl

theorem jokers_remove_tiles (inv : Inventory) (s : Set) :
    (inv.remove_tiles s).jokers = inv.jokers :=
  jokers_fold_dec s.tiles inv

theorem tilesCellCount_nil (i j : Nat) : tilesCellCount [] i j = 0 := rfl

theorem tilesCellCount_cons (t : Tile) (ts : List Tile) (i j : Nat) :
    tilesCellCount (t :: ts) i j =
      tilesCellCount ts i j + (if t.number = i + 1 ∧ t.color = j then 1 else 0) := by
  by_cases h : t.number = i + 1 ∧ t.color = j
  · rw [if_pos h, tilesCellCount, tilesCellCount, List.filter_cons,
      if_pos (by simp [h.1, h.2]), List.length_cons]
  · rw [if_neg h, tilesCellCount, tilesCellCount, List.filter_cons,
      if_neg (by simpa using h)]
    omega

theorem tilesCellCount_pos {t : Tile} {ts : List Tile} (hm : t ∈ ts)
    (hn : 1 ≤ t.number) : 1 ≤ tilesCellCount ts (t.number - 1) t.color := by
  have : t ∈ ts.filter fun u => u.number == t.number - 1 + 1 && u.color == t.color := by
    rw [List.mem_filter]
    exact ⟨hm, by simp; omega⟩
  rw [tilesCellCount]
  have hlen := List.length_pos.2 (List.ne_nil_of_mem this)
  have he : (t.number - 1 + 1) = t.number := by omega
  rw [he] at this ⊢
  exact List.length_pos.2 (List.ne_nil_of_mem this)

/-- Exact bookkeeping of `remove_tiles` (as a fold over a tile list): when
the tiles sit at pairwise distinct, positive-count cells with numbers ≥ 1,
every grid cell loses exactly the number of the list's tiles at that cell. -/
theorem removeFold_cell :
    ∀ (ts : List Tile) (inv : Inventory),
      (∀ t ∈ ts, 1 ≤ t.number ∧ 0 < inv.cell (t.number - 1) t.color) →
      ts.Pairwise (fun a b => ¬(a.number = b.number ∧ a.color = b.color)) →
      ∀ i j,
        (ts.foldl (fun iv t => iv.decCell (t.number - 1) t.color) inv).cell i j
          + tilesCellCount ts i j = inv.cell i j := by
  intro ts
  induction ts with
  | nil => intro inv _ _ i j; simp [tilesCellCount]
  | cons t rest ih =>
    intro inv hok hpw i j
    obtain ⟨hn, hpos⟩ := hok t (by simp)
    have hpw' := List.pairwise_cons.1 hpw
    have hstep :
        ∀ u ∈ rest,
          (inv.decCell (t.number - 1) t.color).cell (u.number - 1) u.color =
            inv.cell (u.number - 1) u.color := by
      intro u hu
      rw [cell_decCell, if_neg]
      intro ⟨h1, h2⟩
      have hu1 := (hok u (by simp [hu])).1
      exact hpw'.1 u hu ⟨by omega, h2.symm⟩
    have hok' : ∀ u ∈ rest,
        1 ≤ u.number ∧ 0 < (inv.decCell (t.number - 1) t.color).cell (u.number - 1) u.color := by
      intro u hu
      rw [hstep u hu]
      exact hok u (by simp [hu])
    have hIH := ih (inv.decCell (t.number - 1) t.color) hok' hpw'.2 i j
    rw [List.foldl_cons, tilesCellCount_cons]
    by_cases hc : t.number = i + 1 ∧ t.color = j
    · have hcz : tilesCellCount rest i j = 0 := by
        rw [tilesCellCount, List.length_eq_zero, List.filter_eq_nil_iff]
        intro u hu hpred
        simp only [Bool.and_eq_true, beq_iff_eq] at hpred
        exact hpw'.1 u hu ⟨by omega, by omega⟩
      rw [hcz] at hIH ⊢
      rw [cell_decCell, if_pos ⟨by omega, by omega⟩] at hIH
      rw [if_pos hc]
      have : t.number - 1 = i := by omega
      rw [this] at hpos
      have hcj : t.color = j := hc.2
      rw [hcj] at hpos
      omega
    · rw [if_neg hc]
      rw [cell_decCell, if_neg (by intro ⟨h1, h2⟩; exact hc ⟨by omega, h2.symm⟩)] at hIH
      omega

/-- `remove_tiles` on a finder-produced set: exact per-cell bookkeeping. -/
theorem remove_tiles_cell (inv : Inventory) (s : Set) (hf : FinderSet inv s) :
    ∀ i j, (inv.remove_tiles s).cell i j + tilesCellCount s.tiles i j = inv.cell i j := by
  obtain ⟨-, hok, hpw⟩ := hf
  exact removeFold_cell s.tiles inv
    (fun t ht => ⟨(hok t ht).1, (hok t ht).2.2.2.2⟩) hpw

/-- Removing a finder set strictly decreases the real-tile count. -/
theorem remove_tiles_real_lt (inv : Inventory) (s : Set) (hf : FinderSet inv s) :
    (inv.remove_tiles s).real_tile_count < inv.real_tile_count := by
  obtain ⟨hne, hok, hpw⟩ := hf
  obtain ⟨t, ht⟩ := List.exists_mem_of_ne_nil s.tiles hne
  have hcell := remove_tiles_cell inv s ⟨hne, hok, hpw⟩
  obtain ⟨hn1, _, _, _, hpos⟩ := hok t ht
  have hb := cell_pos_bounds hpos
  have hle : ∀ i j, (inv.remove_tiles s).cell i j ≤ inv.cell i j := by
    intro i j
    have := hcell i j
    omega
  have hlt : (inv.remove_tiles s).cell (t.number - 1) t.color <
      inv.cell (t.number - 1) t.color := by
    have h1 := hcell (t.number - 1) t.color
    have h2 := tilesCellCount_pos ht hn1
    omega
  rw [Inventory.real_tile_count, Inventory.real_tile_count]
  apply List.sum_lt_sum
  · intro i _
    exact List.sum_le_sum fun j _ => hle i j
  · refine ⟨t.number - 1, by simp [List.mem_range]; omega, ?_⟩
    apply List.sum_lt_sum
    · intro j _
      exact hle (t.number - 1) j
    · exact ⟨t.color, by simp [List.mem_range]; omega, hlt⟩

/-! ## What the meld finders return -/

theorem try_form_set_spec (inv : Inventory) (n : Nat) (s : Set)
    (h1 : 1 ≤ n) (h13 : n ≤ 13) (h : try_form_set inv n = some s) :
    FinderSet inv s ∧ IsGroup s := by
  rw [try_form_set] at h
  split_ifs at h with hlen
  cases h
  have hmem : ∀ t : Tile,
      t ∈ (List.range 4).filterMap (fun color =>
        if inv.cell (n - 1) color > 0 then some (⟨color, n, false⟩ : Tile) else none) →
      t.number = n ∧ t.color < 4 ∧ t.is_joker = false ∧
        0 < inv.cell (n - 1) t.color := by
    intro t ht
    obtain ⟨c, hc, hfc⟩ := List.mem_filterMap.1 ht
    rw [List.mem_range] at hc
    split_ifs at hfc with hpos
    · cases hfc
      exact ⟨rfl, hc, rfl, hpos⟩
  have hpwc : ((List.range 4).filterMap (fun color =>
      if inv.cell (n - 1) color > 0 then some (⟨color, n, false⟩ : Tile) else none)).Pairwise
      (fun a b => a.color ≠ b.color) := by
    apply List.Pairwise.filterMap _ ?_ (List.pairwise_lt_range 4)
    intro a b hab x hx y hy
    split_ifs at hx hy
    · rw [Option.mem_def, Option.some.injEq] at hx hy
      subst hx
      subst hy
      intro hcl
      simp only [] at hcl
      omega
    · simp at hy
    · simp at hx
    · simp at hx
  refine ⟨⟨?_, ?_, ?_⟩, ?_, ?_, ?_, hpwc⟩
  · exact List.length_pos.1 (lt_of_lt_of_le (by norm_num) hlen)
  · intro t ht
    obtain ⟨hnum, hcol, hjok, hpos⟩ := hmem t ht
    refine ⟨by omega, by omega, hcol, hjok, ?_⟩
    rw [hnum]
    exact hpos
  · exact hpwc.imp fun {a b} hcol => fun ⟨_, hc⟩ => hcol hc
  · exact hlen
  · exact le_trans (List.length_filterMap_le _ _) (by simp)
  · intro t ht
    rw [(hmem t ht).1]
    have h0lt : 0 < ((List.range 4).filterMap (fun color =>
        if inv.cell (n - 1) color > 0 then some (⟨color, n, false⟩ : Tile) else none)).length :=
      lt_of_lt_of_le (by norm_num) hlen
    have h0 : ((List.range 4).filterMap (fun color =>
        if inv.cell (n - 1) color > 0 then some (⟨color, n, false⟩ : Tile) else none)).getD 0
          default ∈
        (List.range 4).filterMap (fun color =>
          if inv.cell (n - 1) color > 0 then some (⟨color, n, false⟩ : Tile) else none) := by
      rw [List.getD_eq_getElem _ _ h0lt]
      exact List.getElem_mem h0lt
    exact ((hmem _ h0).1).symm

theorem try_form_run_spec (inv : Inventory) (n c : Nat) (s : Set)
    (h1 : 1 ≤ n) (hc : c < 4) (h : try_form_run inv n c = some s) :
    FinderSet inv s ∧ IsRun s := by
  rw [try_form_run] at h
  split_ifs at h with hlen
  cases h
  have hmem : ∀ t : Tile,
      t ∈ ((List.range' n (14 - n)).takeWhile
            (fun number => inv.cell (number - 1) c > 0)).map
          (fun number => (⟨c, number, false⟩ : Tile)) →
      t.color = c ∧ t.is_joker = false ∧ n ≤ t.number ∧ t.number ≤ 13 ∧
        0 < inv.cell (t.number - 1) c := by
    intro t ht
    obtain ⟨m, hm, hmt⟩ := List.mem_map.1 ht
    have hp := List.mem_takeWhile_imp hm
    have hr := List.mem_range'_1.1 ((List.takeWhile_prefix _).sublist.subset hm)
    simp only [decide_eq_true_eq] at hp
    cases hmt
    exact ⟨rfl, rfl, hr.1, by show m ≤ 13; omega, by show 0 < inv.cell (m - 1) c; exact hp⟩
  have hget : ∀ (k : Nat) (hk : k < (((List.range' n (14 - n)).takeWhile
        (fun number => inv.cell (number - 1) c > 0)).map
        (fun number => (⟨c, number, false⟩ : Tile))).length),
      (((List.range' n (14 - n)).takeWhile
        (fun number => inv.cell (number - 1) c > 0)).map
        (fun number => (⟨c, number, false⟩ : Tile)))[k] = (⟨c, n + k, false⟩ : Tile) := by
    intro k hk
    rw [List.getElem_map]
    congr 1
    rw [List.length_map] at hk
    rw [(List.takeWhile_prefix _).getElem hk]
    exact List.getElem_range'_1 k
      (lt_of_lt_of_le hk (List.takeWhile_prefix _).length_le)
  constructor
  · refine ⟨?_, ?_, ?_⟩
    · exact List.length_pos.1 (lt_of_lt_of_le (by norm_num) hlen)
    · intro t ht
      obtain ⟨hcol, hjok, hn, h13, hpos⟩ := hmem t ht
      rw [hcol]
      exact ⟨by omega, h13, hc, hjok, hpos⟩
    · simp only [Set_tiles_mk]
      rw [List.pairwise_iff_getElem]
      intro a b ha hb hab
      rw [hget a (by omega), hget b (by omega)]
      simp only [Tile_number_mk, Tile_color_mk]
      omega
  · refine ⟨hlen, ?_⟩
    simp only [Set_tiles_mk]
    intro k hk
    rw [List.getD_eq_getElem _ _ hk, List.getD_eq_getElem _ _ (by omega),
      hget k (by omega), hget 0 (by omega)]
    simp only [Tile_number_mk, Tile_color_mk]
    refine ⟨?_, by omega⟩
    simp

/-! ## Claim C10: `remove_tiles` is safe on finder-produced melds -/

/-- Claim C10: on any inventory, any meld returned by `try_form_set(inv, n)`
(1 ≤ n ≤ 13) or `try_form_run(inv, n, c)` (1 ≤ n, c < 4) has every tile
number in 1..13, every color in 0..3, and addresses each grid cell at most
as many times as that cell's count — so `remove_tiles`'s `u8` decrements
never underflow (exact per-cell bookkeeping holds). -/
theorem C10_remove_tiles_safe (inv : Inventory) (n c : Nat) (s : Set)
    (h1 : 1 ≤ n) (h13 : n ≤ 13) (hc : c < 4) :
    (try_form_set inv n = some s → SafeRemove inv s ∧
      ∀ i j, (inv.remove_tiles s).cell i j + tilesCellCount s.tiles i j = inv.cell i j) ∧
    (try_form_run inv n c = some s → SafeRemove inv s ∧
      ∀ i j, (inv.remove_tiles s).cell i j + tilesCellCount s.tiles i j = inv.cell i j) := by
  have hmk : ∀ (hf : FinderSet inv s), SafeRemove inv s ∧
      ∀ i j, (inv.remove_tiles s).cell i j + tilesCellCount s.tiles i j = inv.cell i j := by
    intro hf
    have hcell := remove_tiles_cell inv s hf
    refine ⟨⟨fun t ht => ⟨(hf.2.1 t ht).1, (hf.2.1 t ht).2.1, (hf.2.1 t ht).2.2.1⟩, ?_⟩, hcell⟩
    intro i j
    have := hcell i j
    omega
  exact ⟨fun h => hmk (try_form_set_spec inv n s h1 h13 h).1,
    fun h => hmk (try_form_run_spec inv n c s h1 hc h).1⟩

/-- Witness for C10 at the inventory with four fives, cell (5, colors). -/
theorem C10_remove_tiles_safe_witness :
    SafeRemove invFourFives
      ⟨[⟨0, 5, false⟩, ⟨1, 5, false⟩, ⟨2, 5, false⟩, ⟨3, 5, false⟩]⟩ ∧
    ∀ i j, (invFourFives.remove_tiles
        ⟨[⟨0, 5, false⟩, ⟨1, 5, false⟩, ⟨2, 5, false⟩, ⟨3, 5, false⟩]⟩).cell i j
      + tilesCellCount [⟨0, 5, false⟩, ⟨1, 5, false⟩, ⟨2, 5, false⟩, ⟨3, 5, false⟩] i j
      = invFourFives.cell i j :=
  (C10_remove_tiles_safe invFourFives 5 0 _ (by decide) (by decide) (by decide)).1
    (by decide)

/-! ## The partition invariant of the solver (claims C4, C5) -/

theorem joinedTiles_nil : joinedTiles [] = [] := rfl

theorem joinedTiles_append (l1 l2 : List Set) :
    joinedTiles (l1 ++ l2) = joinedTiles l1 ++ joinedTiles l2 := by
  simp [joinedTiles]

theorem joinedTiles_singleton (s : Set) : joinedTiles [s] = s.tiles := by
  simp [joinedTiles]

theorem realCountAt_nil (i j : Nat) : realCountAt [] i j = 0 := rfl

theorem realCountAt_append (ts1 ts2 : List Tile) (i j : Nat) :
    realCountAt (ts1 ++ ts2) i j = realCountAt ts1 i j + realCountAt ts2 i j := by
  simp [realCountAt, List.filter_append]

theorem realCountAt_eq_tilesCellCount {ts : List Tile}
    (h : ∀ t ∈ ts, t.is_joker = false) (i j : Nat) :
    realCountAt ts i j = tilesCellCount ts i j := by
  rw [realCountAt, tilesCellCount, List.filter_congr]
  intro t ht
  simp [h t ht]

theorem cell_eq_zero_of_is_empty {inv : Inventory} (he : inv.is_empty = true)
    (i j : Nat) : inv.cell i j = 0 := by
  by_cases hb : i < 13 ∧ j < 4
  · have h1 := List.all_eq_true.1 he i (List.mem_range.2 hb.1)
    have h2 := List.all_eq_true.1 h1 j (List.mem_range.2 hb.2)
    simpa using h2
  · rw [Inventory.cell, cellOf, dif_neg hb]

theorem solveBranch_good (solve : Inventory → Memo → Option (List Set) × Memo)
    (hs : GoodSolve solve) (inv : Inventory) (cand : Option Set)
    (hcand : ∀ s, cand = some s → FinderSet inv s ∧ (IsGroup s ∨ IsRun s))
    (memo : Memo) (hm : SomeFree memo) :
    ((solveBranch solve inv cand memo).1 = none →
      SomeFree (solveBranch solve inv cand memo).2) ∧
    (∀ sets, (solveBranch solve inv cand memo).1 = some sets →
      Consumes inv sets ∧ (∀ s ∈ sets, IsGroup s ∨ IsRun s) ∧
        NoJokerTiles sets ∧ TilesInBounds sets) := by
  cases cand with
  | none =>
    exact ⟨fun _ => hm, fun sets h => absurd h (by simp [solveBranch])⟩
  | some s =>
    obtain ⟨hf, hv⟩ := hcand s rfl
    rcases hE : solve (inv.remove_tiles s) memo with ⟨b1, m1⟩
    have hrec := hs (inv.remove_tiles s) memo hm
    rw [hE] at hrec
    cases b1 with
    | none =>
      simp only [solveBranch, hE]
      exact ⟨fun _ => hrec.1 rfl, fun sets h => absurd h (by simp)⟩
    | some sol =>
      obtain ⟨hcons, hval, hnoj, hbnd⟩ := hrec.2 sol rfl
      simp only [solveBranch, hE]
      refine ⟨fun h => absurd h (by simp), ?_⟩
      intro sets h
      have hsets : sol ++ [s] = sets := by simpa using h
      subst hsets
      have hjoin : joinedTiles (sol ++ [s]) = joinedTiles sol ++ s.tiles := by
        rw [joinedTiles_append, joinedTiles_singleton]
      refine ⟨?_, ?_, ?_, ?_⟩
      · intro i j
        have h1 := remove_tiles_cell inv s hf i j
        have h2 := hcons i j
        have h3 := realCountAt_eq_tilesCellCount
          (fun t ht => (hf.2.1 t ht).2.2.2.1) i j
        rw [hjoin, realCountAt_append]
        omega
      · intro x hx
        rcases List.mem_append.1 hx with hx1 | hx1
        · exact hval x hx1
        · rw [List.mem_singleton.1 hx1]
          exact hv
      · intro t ht
        rw [hjoin] at ht
        rcases List.mem_append.1 ht with ht1 | ht1
        · exact hnoj t ht1
        · exact (hf.2.1 t ht1).2.2.2.1
      · intro t ht
        rw [hjoin] at ht
        rcases List.mem_append.1 ht with ht1 | ht1
        · exact hbnd t ht1
        · exact ⟨(hf.2.1 t ht1).1, (hf.2.1 t ht1).2.1, (hf.2.1 t ht1).2.2.1⟩

theorem solveCells_good (solve : Inventory → Memo → Option (List Set) × Memo)
    (hs : GoodSolve solve) (inv : Inventory) :
    ∀ (cells : List (Nat × Nat)),
      (∀ nc ∈ cells, 1 ≤ nc.1 ∧ nc.1 ≤ 13 ∧ nc.2 < 4) →
      ∀ memo, SomeFree memo →
      ((solveCells solve inv cells memo).1 = none →
        SomeFree (solveCells solve inv cells memo).2) ∧
      (∀ sets, (solveCells solve inv cells memo).1 = some sets →
        Consumes inv sets ∧ (∀ s ∈ sets, IsGroup s ∨ IsRun s) ∧
          NoJokerTiles sets ∧ TilesInBounds sets) := by
  intro cells
  induction cells with
  | nil =>
    intro _ memo hm
    refine ⟨fun _ => ?_, fun sets h => absurd h (by simp [solveCells])⟩
    intro p hp
    rcases List.mem_cons.1 hp with hp1 | hp1
    · rw [hp1]
    · exact hm p hp1
  | cons nc rest ih =>
    obtain ⟨number, color⟩ := nc
    intro hb memo hm
    have hbh := hb (number, color) (by simp)
    by_cases hcell : inv.cell (number - 1) color > 0
    · have hcand_set : ∀ s, try_form_set inv number = some s →
          FinderSet inv s ∧ (IsGroup s ∨ IsRun s) := by
        intro s h
        obtain ⟨hf, hg⟩ := try_form_set_spec inv number s hbh.1 hbh.2.1 h
        exact ⟨hf, Or.inl hg⟩
      have hbs := solveBranch_good solve hs inv (try_form_set inv number)
        hcand_set memo hm
      rcases hE1 : solveBranch solve inv (try_form_set inv number) memo with ⟨b1, m1⟩
      rw [hE1] at hbs
      cases b1 with
      | some sol =>
        simp only [solveCells, if_pos hcell, hE1]
        refine ⟨fun h => absurd h (by simp), ?_⟩
        intro sets h
        have hsol : sol = sets := by simpa using h
        subst hsol
        exact hbs.2 sol rfl
      | none =>
        have hm1 : SomeFree m1 := hbs.1 rfl
        have hcand_run : ∀ s, try_form_run inv number color = some s →
            FinderSet inv s ∧ (IsGroup s ∨ IsRun s) := by
          intro s h
          obtain ⟨hf, hg⟩ := try_form_run_spec inv number color s hbh.1 hbh.2.2 h
          exact ⟨hf, Or.inr hg⟩
        have hbr := solveBranch_good solve hs inv (try_form_run inv number color)
          hcand_run m1 hm1
        rcases hE2 : solveBranch solve inv (try_form_run inv number color) m1 with ⟨b2, m2⟩
        rw [hE2] at hbr
        cases b2 with
        | some sol =>
          simp only [solveCells, if_pos hcell, hE1, hE2]
          refine ⟨fun h => absurd h (by simp), ?_⟩
          intro sets h
          have hsol : sol = sets := by simpa using h
          subst hsol
          exact hbr.2 sol rfl
        | none =>
          have hm2 : SomeFree m2 := hbr.1 rfl
          have hrest := ih (fun nc hnc => hb nc (by simp [hnc])) m2 hm2
          simpa only [solveCells, if_pos hcell, hE1, hE2] using hrest
    · have hrest := ih (fun nc hnc => hb nc (by simp [hnc])) memo hm
      simpa only [solveCells, if_neg hcell] using hrest

/-- Every fueled solver call satisfies the partition invariant. -/
theorem solveFuel_good : ∀ fuel, GoodSolve (solveFuel fuel) := by
  intro fuel
  induction fuel with
  | zero =>
    intro inv memo hm
    exact ⟨fun _ => hm, fun sets h => absurd h (by simp [solveFuel])⟩
  | succ f ih =>
    intro inv memo hm
    rcases hL : memo.lookup inv.hash with _ | v
    · by_cases he : inv.is_empty
      · simp only [solveFuel, hL, if_pos he]
        refine ⟨fun h => absurd h (by simp), ?_⟩
        intro sets h
        have hsets : [] = sets := by simpa using h
        subst hsets
        refine ⟨?_, by simp, by simp [NoJokerTiles, joinedTiles], by simp [TilesInBounds, joinedTiles]⟩
        intro i j
        rw [cell_eq_zero_of_is_empty he i j]
        rfl
      · have := solveCells_good (solveFuel f) ih inv allCells (by decide) memo hm
        simpa only [solveFuel, hL, if_neg he] using this
    · have hv : v = none := hm _ (lookup_mem hL)
      subst hv
      simp only [solveFuel, hL]
      exact ⟨fun _ => hm, fun sets h => absurd h (by simp)⟩

/-- Claim C4: whenever `solve_rummikub` run on a memo with only `NotFound`
entries (in particular a fresh memo) returns `Found(sets)`, every grid cell's
count equals exactly the number of non-joker tiles the partition places at
that cell (all tiles being in bounds, this is multiset equality with the
inventory's real tiles, zero left over), and the number of joker-marked tiles
across the melds (in fact zero) is at most the inventory's joker count. -/
theorem C4_exact_consumption (inv : Inventory) (memo : Memo) (hm : SomeFree memo)
    (sets : List Set) (h : (solve_rummikub inv memo).1 = some sets) :
    (∀ i j, inv.cell i j = realCountAt (joinedTiles sets) i j) ∧
    TilesInBounds sets ∧
    ((joinedTiles sets).filter (fun t => t.is_joker)).length ≤ inv.jokers := by
  obtain ⟨hcons, -, hnoj, hbnd⟩ :=
    (solveFuel_good (inv.real_tile_count + 1) inv memo hm).2 sets h
  refine ⟨hcons, hbnd, ?_⟩
  have hnil : (joinedTiles sets).filter (fun t => t.is_joker) = [] := by
    rw [List.filter_eq_nil_iff]
    intro t ht
    simp [hnoj t ht]
  rw [hnil]
  simp

/-- Witness for C4 at the all-zero grid with 5 jokers and a fresh memo. -/
theorem C4_exact_consumption_witness :
    (∀ i j, (⟨gridOf [], 5⟩ : Inventory).cell i j =
      realCountAt (joinedTiles []) i j) ∧
    TilesInBounds [] ∧
    ((joinedTiles []).filter (fun t => t.is_joker)).length ≤
      (⟨gridOf [], 5⟩ : Inventory).jokers :=
  C4_exact_consumption ⟨gridOf [], 5⟩ [] (by intro p hp; simp at hp) []
    (by decide)

/-- Claim C5: every meld inside a `Found` result of `solve_rummikub` (run on
a memo with only `NotFound` entries, in particular a fresh memo) is a valid
group (3–4 tiles, equal number, pairwise-distinct colors) or a valid run
(≥3 tiles, equal color, strictly consecutive ascending numbers). -/
theorem C5_meld_validity (inv : Inventory) (memo : Memo) (hm : SomeFree memo)
    (sets : List Set) (h : (solve_rummikub inv memo).1 = some sets) :
    ∀ s ∈ sets, IsGroup s ∨ IsRun s :=
  ((solveFuel_good (inv.real_tile_count + 1) inv memo hm).2 sets h).2.1

set_option maxRecDepth 1000000 in
/-- Witness for C5 at the four-fives inventory, whose solution is the single
4-tile group of fives. -/
theorem C5_meld_validity_witness :
    IsGroup ⟨[⟨0, 5, false⟩, ⟨1, 5, false⟩, ⟨2, 5, false⟩, ⟨3, 5, false⟩]⟩ ∨
    IsRun ⟨[⟨0, 5, false⟩, ⟨1, 5, false⟩, ⟨2, 5, false⟩, ⟨3, 5, false⟩]⟩ :=
  C5_meld_validity invFourFives [] (by intro p hp; simp at hp)
    [⟨[⟨0, 5, false⟩, ⟨1, 5, false⟩, ⟨2, 5, false⟩, ⟨3, 5, false⟩]⟩]
    (by decide) _ (by simp)

/-! ## Claim C6: termination and the recursion-depth bound -/

theorem is_empty_of_real_zero {inv : Inventory} (h : inv.real_tile_count = 0) :
    inv.is_empty = true := by
  rw [Inventory.real_tile_count] at h
  simp only [Inventory.is_empty, List.all_eq_true, beq_iff_eq]
  intro i hi j hj
  have hrow := List.sum_eq_zero_iff.1 h _ (List.mem_map_of_mem _ hi)
  exact List.sum_eq_zero_iff.1 hrow _ (List.mem_map_of_mem _ hj)

theorem solveBranch_congr (s1 s2 : Inventory → Memo → Option (List Set) × Memo)
    (inv : Inventory) (cand : Option Set)
    (hcand : ∀ s, cand = some s → FinderSet inv s)
    (h : ∀ (s : Set), FinderSet inv s → ∀ memo,
      s1 (inv.remove_tiles s) memo = s2 (inv.remove_tiles s) memo)
    (memo : Memo) :
    solveBranch s1 inv cand memo = solveBranch s2 inv cand memo := by
  cases cand with
  | none => rfl
  | some s => simp only [solveBranch, h s (hcand s rfl) memo]

theorem solveCells_congr (s1 s2 : Inventory → Memo → Option (List Set) × Memo)
    (inv : Inventory)
    (h : ∀ (s : Set), FinderSet inv s → ∀ memo,
      s1 (inv.remove_tiles s) memo = s2 (inv.remove_tiles s) memo) :
    ∀ (cells : List (Nat × Nat)),
      (∀ nc ∈ cells, 1 ≤ nc.1 ∧ nc.1 ≤ 13 ∧ nc.2 < 4) →
      ∀ memo, solveCells s1 inv cells memo = solveCells s2 inv cells memo := by
  intro cells
  induction cells with
  | nil => intro _ memo; rfl
  | cons nc rest ih =>
    obtain ⟨number, color⟩ := nc
    intro hb memo
    have hbh := hb (number, color) (by simp)
    have hcs : ∀ s, try_form_set inv number = some s → FinderSet inv s :=
      fun s hs => (try_form_set_spec inv number s hbh.1 hbh.2.1 hs).1
    have hcr : ∀ s, try_form_run inv number color = some s → FinderSet inv s :=
      fun s hs => (try_form_run_spec inv number color s hbh.1 hbh.2.2 hs).1
    by_cases hcell : inv.cell (number - 1) color > 0
    · have e1 := solveBranch_congr s1 s2 inv (try_form_set inv number) hcs h memo
      simp only [solveCells, if_pos hcell, e1]
      rcases hE1 : solveBranch s2 inv (try_form_set inv number) memo with ⟨b1, m1⟩
      cases b1 with
      | some sol => rfl
      | none =>
        have e2 := solveBranch_congr s1 s2 inv (try_form_run inv number color) hcr h m1
        simp only [e2]
        rcases hE2 : solveBranch s2 inv (try_form_run inv number color) m1 with ⟨b2, m2⟩
        cases b2 with
        | some sol => rfl
        | none => exact ih (fun nc hnc => hb nc (by simp [hnc])) m2
    · simp only [solveCells, if_neg hcell]
      exact ih (fun nc hnc => hb nc (by simp [hnc])) memo

theorem solveFuel_congr (n : Nat) :
    ∀ (inv : Inventory) (f1 f2 : Nat) (memo : Memo),
      inv.real_tile_count ≤ n → n < f1 → n < f2 →
      solveFuel f1 inv memo = solveFuel f2 inv memo := by
  induction n with
  | zero =>
    intro inv f1 f2 memo hrc h1 h2
    obtain ⟨g1, rfl⟩ : ∃ g, f1 = g + 1 := ⟨f1 - 1, by omega⟩
    obtain ⟨g2, rfl⟩ : ∃ g, f2 = g + 1 := ⟨f2 - 1, by omega⟩
    have he : inv.is_empty = true := is_empty_of_real_zero (by omega)
    simp only [solveFuel, he, if_true]
  | succ n ih =>
    intro inv f1 f2 memo hrc h1 h2
    obtain ⟨g1, rfl⟩ : ∃ g, f1 = g + 1 := ⟨f1 - 1, by omega⟩
    obtain ⟨g2, rfl⟩ : ∃ g, f2 = g + 1 := ⟨f2 - 1, by omega⟩
    simp only [solveFuel]
    rcases hL : memo.lookup inv.hash with _ | v
    · simp only [hL]
      by_cases he : inv.is_empty
      · simp [he]
      · have he' : inv.is_empty = false := by simpa using he
        simp only [he', Bool.false_eq_true, if_false]
        apply solveCells_congr (solveFuel g1) (solveFuel g2) inv ?_ allCells
          (by decide) memo
        intro s hf m
        have hlt := remove_tiles_real_lt inv s hf
        exact ih (inv.remove_tiles s) g1 g2 m (by omega) (by omega) (by omega)
    · simp only [hL]

set_option maxRecDepth 40000 in
/-- Claim C6: the solver terminates on every inventory (its embedding is a
total function), and on an inventory with `n` real tiles a recursion-depth
allowance of `n` beyond the root call — fuel `n + 1`, which is how
`solve_rummikub` is defined — already determines the answer: any larger fuel
returns the same result, because each recursive step removes a committed
meld's tiles (at least one real tile) before recursing. -/
theorem C6_depth_bound (inv : Inventory) (memo : Memo) (fuel : Nat)
    (h : inv.real_tile_count < fuel) :
    solveFuel fuel inv memo = solve_rummikub inv memo :=
  solveFuel_congr inv.real_tile_count inv fuel (inv.real_tile_count + 1) memo
    le_rfl h (Nat.lt_succ_self _)

set_option maxRecDepth 40000 in
/-- Witness for C6: fuel 9 on the two-tile scenario inventory (2 real tiles)
agrees with the solver's own fuel of 3. -/
theorem C6_depth_bound_witness :
    solveFuel 9 invTwoSevenNine [] = solve_rummikub invTwoSevenNine [] :=
  C6_depth_bound invTwoSevenNine [] 9 (by decide)

/-! ## Claim C9: the solver never reads the joker count (except through the
memo key, where it is a uniform additive offset mod 2^64) -/

theorem hash_lt (inv : Inventory) : inv.hash < wordSize :=
  Nat.mod_lt _ (by norm_num [wordSize])

theorem lookup_memoShift (d k : Nat) (hk : k < wordSize) :
    ∀ (m : Memo), KeysLt m →
      (memoShift d m).lookup (shiftKey d k) = m.lookup k := by
  intro m
  induction m with
  | nil => intro _; rfl
  | cons p rest ih =>
    intro hkl
    have hp := hkl p (by simp)
    simp only [memoShift, List.map_cons]
    rw [List.lookup, List.lookup]
    have hbeq : (shiftKey d k == shiftKey d p.1) = (k == p.1) := by
      by_cases he : k = p.1
      · simp [he]
      · have hne : shiftKey d k ≠ shiftKey d p.1 := by
          intro hs
          apply he
          have h2 : k % wordSize = p.1 % wordSize :=
            Nat.ModEq.add_right_cancel' d hs
          rwa [Nat.mod_eq_of_lt hk, Nat.mod_eq_of_lt hp] at h2
        simp [he, hne]
    rw [hbeq]
    cases hb : (k == p.1) with
    | true => rfl
    | false => exact ih fun q hq => hkl q (by simp [hq])

theorem hash_shift (g : Fin 13 → Fin 4 → Nat) (j1 j2 d : Nat)
    (hj : (j1 + d) % wordSize = j2 % wordSize) :
    Inventory.hash ⟨g, j2⟩ = shiftKey d (Inventory.hash ⟨g, j1⟩) := by
  simp only [Inventory.hash, shiftKey]
  conv_rhs => rw [Nat.mod_add_mod, Nat.add_assoc, ← Nat.add_mod_mod, hj,
    Nat.add_mod_mod]

theorem removeFold_mk :
    ∀ (ts : List Tile) (g : Fin 13 → Fin 4 → Nat) (j : Nat),
      ts.foldl (fun iv t => iv.decCell (t.number - 1) t.color)
          (⟨g, j⟩ : Inventory) =
        ⟨(ts.foldl (fun iv t => iv.decCell (t.number - 1) t.color)
            (⟨g, 0⟩ : Inventory)).grid, j⟩ := by
  intro ts
  induction ts with
  | nil => intro g j; rfl
  | cons t rest ih =>
    intro g j
    rw [List.foldl_cons, List.foldl_cons]
    have h1 : (⟨g, j⟩ : Inventory).decCell (t.number - 1) t.color =
        ⟨((⟨g, 0⟩ : Inventory).decCell (t.number - 1) t.color).grid, j⟩ := rfl
    rw [h1, ih]
    rfl

theorem remove_tiles_mk (s : Set) (g : Fin 13 → Fin 4 → Nat) (j : Nat) :
    Inventory.remove_tiles ⟨g, j⟩ s =
      ⟨(Inventory.remove_tiles ⟨g, 0⟩ s).grid, j⟩ :=
  removeFold_mk s.tiles g j

theorem solveBranch_shift (d : Nat)
    (s1 s2 : Inventory → Memo → Option (List Set) × Memo)
    (g : Fin 13 → Fin 4 → Nat) (j1 j2 : Nat)
    (hrel : ∀ (g' : Fin 13 → Fin 4 → Nat) (m : Memo), KeysLt m →
      s2 ⟨g', j2⟩ (memoShift d m) =
        ((s1 ⟨g', j1⟩ m).1, memoShift d (s1 ⟨g', j1⟩ m).2) ∧
      KeysLt (s1 ⟨g', j1⟩ m).2)
    (cand : Option Set) (m : Memo) (hkl : KeysLt m) :
    solveBranch s2 ⟨g, j2⟩ cand (memoShift d m) =
      ((solveBranch s1 ⟨g, j1⟩ cand m).1,
       memoShift d (solveBranch s1 ⟨g, j1⟩ cand m).2) ∧
    KeysLt (solveBranch s1 ⟨g, j1⟩ cand m).2 := by
  cases cand with
  | none => exact ⟨rfl, hkl⟩
  | some s =>
    have hr2 := remove_tiles_mk s g j2
    have hr1 := remove_tiles_mk s g j1
    obtain ⟨heq, hk⟩ := hrel (Inventory.remove_tiles ⟨g, 0⟩ s).grid m hkl
    rcases hE : s1 ⟨(Inventory.remove_tiles ⟨g, 0⟩ s).grid, j1⟩ m with ⟨b1, m1⟩
    rw [hE] at heq hk
    simp only [solveBranch, hr1, hr2, hE, heq]
    cases b1 with
    | some sol => exact ⟨rfl, hk⟩
    | none => exact ⟨rfl, hk⟩

theorem solveCells_shift (d : Nat)
    (s1 s2 : Inventory → Memo → Option (List Set) × Memo)
    (g : Fin 13 → Fin 4 → Nat) (j1 j2 : Nat)
    (hrel : ∀ (g' : Fin 13 → Fin 4 → Nat) (m : Memo), KeysLt m →
      s2 ⟨g', j2⟩ (memoShift d m) =
        ((s1 ⟨g', j1⟩ m).1, memoShift d (s1 ⟨g', j1⟩ m).2) ∧
      KeysLt (s1 ⟨g', j1⟩ m).2)
    (hj : (j1 + d) % wordSize = j2 % wordSize) :
    ∀ (cells : List (Nat × Nat)) (m : Memo), KeysLt m →
      solveCells s2 ⟨g, j2⟩ cells (memoShift d m) =
        ((solveCells s1 ⟨g, j1⟩ cells m).1,
         memoShift d (solveCells s1 ⟨g, j1⟩ cells m).2) ∧
      KeysLt (solveCells s1 ⟨g, j1⟩ cells m).2 := by
  intro cells
  induction cells with
  | nil =>
    intro m hkl
    constructor
    · simp only [solveCells, memoShift, List.map_cons,
        hash_shift g j1 j2 d hj]
    · intro p hp
      rcases List.mem_cons.1 hp with h | h
      · rw [h]
        exact hash_lt _
      · exact hkl p h
  | cons nc rest ih =>
    obtain ⟨number, color⟩ := nc
    intro m hkl
    have hfs : try_form_set (⟨g, j2⟩ : Inventory) number =
        try_form_set ⟨g, j1⟩ number := rfl
    have hfr : try_form_run (⟨g, j2⟩ : Inventory) number color =
        try_form_run ⟨g, j1⟩ number color := rfl
    by_cases hcell : (⟨g, j1⟩ : Inventory).cell (number - 1) color > 0
    · have hcell2 : (⟨g, j2⟩ : Inventory).cell (number - 1) color > 0 := hcell
      obtain ⟨hbeq, hbk⟩ := solveBranch_shift d s1 s2 g j1 j2 hrel
        (try_form_set ⟨g, j1⟩ number) m hkl
      rcases hE1 : solveBranch s1 ⟨g, j1⟩ (try_form_set ⟨g, j1⟩ number) m with ⟨b1, m1⟩
      rw [hE1] at hbeq hbk
      cases b1 with
      | some sol =>
        simp only [solveCells, if_pos hcell, if_pos hcell2, hfs, hbeq, hE1,
          hash_shift g j1 j2 d hj]
        exact ⟨rfl, fun p hp => by
          rcases List.mem_cons.1 hp with h | h
          · rw [h]; exact hash_lt _
          · exact hbk p h⟩
      | none =>
        obtain ⟨hbeq2, hbk2⟩ := solveBranch_shift d s1 s2 g j1 j2 hrel
          (try_form_run ⟨g, j1⟩ number color) m1 hbk
        rcases hE2 : solveBranch s1 ⟨g, j1⟩ (try_form_run ⟨g, j1⟩ number color) m1
          with ⟨b2, m2⟩
        rw [hE2] at hbeq2 hbk2
        cases b2 with
        | some sol =>
          simp only [solveCells, if_pos hcell, if_pos hcell2, hfs, hfr, hbeq,
            hE1, hbeq2, hE2, hash_shift g j1 j2 d hj]
          exact ⟨rfl, fun p hp => by
            rcases List.mem_cons.1 hp with h | h
            · rw [h]; exact hash_lt _
            · exact hbk2 p h⟩
        | none =>
          have hres := ih m2 hbk2
          simpa only [solveCells, if_pos hcell, if_pos hcell2, hfs, hfr, hbeq,
            hE1, hbeq2, hE2] using hres
    · have hcell2 : ¬ (⟨g, j2⟩ : Inventory).cell (number - 1) color > 0 := hcell
      have hres := ih m hkl
      simpa only [solveCells, if_neg hcell, if_neg hcell2] using hres

theorem solveFuel_shift (d : Nat) :
    ∀ (fuel : Nat) (g : Fin 13 → Fin 4 → Nat) (j1 j2 : Nat) (m : Memo),
      (j1 + d) % wordSize = j2 % wordSize → KeysLt m →
      solveFuel fuel ⟨g, j2⟩ (memoShift d m) =
        ((solveFuel fuel ⟨g, j1⟩ m).1,
         memoShift d (solveFuel fuel ⟨g, j1⟩ m).2) ∧
      KeysLt (solveFuel fuel ⟨g, j1⟩ m).2 := by
  intro fuel
  induction fuel with
  | zero => intro g j1 j2 m hj hkl; exact ⟨rfl, hkl⟩
  | succ f ih =>
    intro g j1 j2 m hj hkl
    have hh := hash_shift g j1 j2 d hj
    have hlk : (memoShift d m).lookup (Inventory.hash ⟨g, j2⟩) =
        m.lookup (Inventory.hash ⟨g, j1⟩) := by
      rw [hh]
      exact lookup_memoShift d _ (hash_lt _) m hkl
    rcases hL : m.lookup (Inventory.hash ⟨g, j1⟩) with _ | v
    · rw [hL] at hlk
      by_cases he : (⟨g, j1⟩ : Inventory).is_empty
      · have he2 : (⟨g, j2⟩ : Inventory).is_empty = true := he
        simp only [solveFuel, hlk, hL, he, he2, if_true]
        exact ⟨trivial, hkl⟩
      · have he1 : (⟨g, j1⟩ : Inventory).is_empty = false := by simpa using he
        have he2 : (⟨g, j2⟩ : Inventory).is_empty = false := he1
        simp only [solveFuel, hlk, hL, he1, he2, Bool.false_eq_true, if_false]
        exact solveCells_shift d (solveFuel f) (solveFuel f) g j1 j2
          (fun g' m' hkl' => ih g' j1 j2 m' hj hkl') hj allCells m hkl
    · rw [hL] at hlk
      simp only [solveFuel, hlk, hL]
      exact ⟨trivial, hkl⟩

/-- Claim C9: joker noninterference.  For any two inventories with the same
grid (any joker counts), `solve_rummikub` from a fresh memo returns the same
result, and no tile of a returned meld is joker-marked: the search only reads
the grid; the joker count enters only as a uniform additive offset on every
memo key, which a fresh memo never observes. -/
theorem C9_joker_noninterference (inv1 inv2 : Inventory)
    (hg : inv1.grid = inv2.grid) :
    (solve_rummikub inv1 []).1 = (solve_rummikub inv2 []).1 ∧
    (∀ sets, (solve_rummikub inv1 []).1 = some sets →
      ∀ t ∈ joinedTiles sets, t.is_joker = false) := by
  obtain ⟨g, j1⟩ := inv1
  obtain ⟨g2, j2⟩ := inv2
  cases hg
  constructor
  · have hj : (j1 + (j2 % wordSize + (wordSize - j1 % wordSize)) % wordSize)
        % wordSize = j2 % wordSize := by
      simp only [wordSize]
      omega
    obtain ⟨heq, -⟩ := solveFuel_shift
      ((j2 % wordSize + (wordSize - j1 % wordSize)) % wordSize)
      ((⟨g, j1⟩ : Inventory).real_tile_count + 1) g j1 j2 [] hj
      (by intro p hp; simp at hp)
    exact (congrArg Prod.fst heq).symm
  · intro sets h
    exact ((solveFuel_good _ _ [] (by intro p hp; simp at hp)).2 sets h).2.2.1

/-- Witness for C9 at two empty-grid inventories with joker counts 0 and 3. -/
theorem C9_joker_noninterference_witness :
    (solve_rummikub ⟨gridOf [], 0⟩ []).1 = (solve_rummikub ⟨gridOf [], 3⟩ []).1 ∧
    (∀ sets, (solve_rummikub ⟨gridOf [], 0⟩ []).1 = some sets →
      ∀ t ∈ joinedTiles sets, t.is_joker = false) :=
  C9_joker_noninterference ⟨gridOf [], 0⟩ ⟨gridOf [], 3⟩ rfl

end Rummikub
